import Mathlib

/-!
Shallow embedding of the humanization and sequencing core of the
`interception` input-synthesis library (public surface declared in
`src/include/interception/input.h`): the process-wide configuration
knobs, the timing randomizer, the key/button state tracker behind
`hold`/`release`/`press`, the device selector behind
`capture_input_devices`, the text writer `write`, and the Bézier curve
generator feeding `move_mouse_to`.

The repository ships only the public header; the bodies of the public
operations live in translation units that are not part of the header.
Definitions for those bodies are modelled from the specification and
are marked as such in their doc comments.  The configuration globals
and the default-argument wiring are taken directly from the header.
-/

namespace interception

/-- Logical input identifier (`inputable_t` in the header): a keyboard
key, the shift modifier, or a mouse button. -/
inductive InputId where
  | key : Char → InputId
  | shiftMod : InputId
  | mouseButton : Nat → InputId
  deriving DecidableEq

/-- A hardware-level event emitted through the transport collaborator. -/
inductive Event where
  | down : InputId → Event
  | up : InputId → Event
  deriving DecidableEq

/-- HeldState: mapping from input identifier to the tracked
"currently down" boolean; an identifier that was never touched maps to
`false`. -/
def HeldState : Type := InputId → Bool

/-- The initial held state: nothing is down. -/
def initHeld : HeldState := fun _ => false

/-- Point-wise update of the held state. -/
def setHeld (s : HeldState) (i : InputId) (b : Bool) : HeldState :=
  fun j => if j = i then b else s j

/-- Modelled from the spec: the body of `hold` (its translation unit is
not in the header).  If the input is currently up, a down event is
emitted and the input transitions to down; if it is already down the
call is a no-op and emits nothing. -/
def holdStep (s : HeldState) (i : InputId) : HeldState × List Event :=
  if s i then (s, []) else (setHeld s i true, [Event.down i])

/-- Modelled from the spec: the body of `release` (its translation unit
is not in the header).  If the input is currently down, an up event is
emitted and the input transitions to up; otherwise nothing happens. -/
def releaseStep (s : HeldState) (i : InputId) : HeldState × List Event :=
  if s i then (setHeld s i false, [Event.up i]) else (s, [])

/-- A recoverable transport error (device unplugged, handle
invalidated) reported by the external transport collaborator. -/
inductive TxError where
  | transportFailure
  deriving DecidableEq

/-- Modelled from the spec: `hold` in the presence of a fallible
transport.  `sendOk` tells whether the transport accepts the down
event.  On transport failure the held state is left untouched and the
error is returned to the caller instead of aborting. -/
def holdStepTx (sendOk : Bool) (s : HeldState) (i : InputId) :
    HeldState × List Event × Option TxError :=
  if s i then (s, ([], none))
  else if sendOk then (setHeld s i true, ([Event.down i], none))
  else (s, ([], some TxError.transportFailure))

/-- Modelled from the spec: the trace of `hold(input, duration = t)`
followed by a manual `release` before `t` elapses, followed by the
deferred auto-release timer firing.  The timer performs an ordinary
`release`, so it honours the state tracker and skips the up event when
the input is already up. -/
def holdManualReleaseTimerTrace (s : HeldState) (i : InputId) :
    HeldState × List Event :=
  let r1 := holdStep s i
  let r2 := releaseStep r1.1 i
  let r3 := releaseStep r2.1 i
  (r3.1, r1.2 ++ r2.2 ++ r3.2)

/-- The process-wide configuration block: the four inline globals
declared at the top of `input.h`.  Durations are in integral
milliseconds. -/
structure Config where
  default_press_duration : Int
  randomize_durations : Bool
  rand_factor_bounds : ℚ × ℚ
  auto_disable_mouse_accel : Bool

/-- The configuration at process start, with the initializers written
in the header: 5 ms default press duration, randomization on, factor
bounds (0.8, 1.2), auto-disable of mouse acceleration on. -/
def initConfig : Config :=
  ⟨5, true, ((0.8 : ℚ), (1.2 : ℚ)), true⟩

/-- Modelled from the spec: the timing randomizer.  With randomization
disabled the nominal duration is returned unchanged; with it enabled, a
multiplicative factor `f` drawn from the configured bounds is applied
and the product is rounded to the nearest integer and clamped to be
non-negative.  The random draw is modelled by passing `f` explicitly. -/
def jitter (cfg : Config) (f : ℚ) (d : Int) : Int :=
  if cfg.randomize_durations then max 0 (round ((d : ℚ) * f)) else d

/-- The duration `press` actually uses: callers may pass a duration
explicitly; when they omit it, the default argument
`duration = default_press_duration` re-evaluates the inline global at
the call site, so the current configuration value is read per call. -/
def resolvePressDuration (cfg : Config) (duration : Option Int) : Int :=
  duration.getD cfg.default_press_duration

/-- Mutation of the inline global `default_press_duration`. -/
def setDefaultPressDuration (cfg : Config) (d : Int) : Config :=
  { cfg with default_press_duration := d }

/-- Integer screen point. -/
structure Pt where
  x : Int
  y : Int
  deriving DecidableEq

/-- Rational point: an exact sample on the Bézier curve before
rounding to integer pixels. -/
structure QPt where
  x : ℚ
  y : ℚ
  deriving DecidableEq

/-- Embeds an integer point into rational coordinates. -/
def toQPt (p : Pt) : QPt := ⟨(p.x : ℚ), (p.y : ℚ)⟩

/-- Modelled from the spec: a standard cubic Bézier curve through
start `p0`, control points `p1`, `p2`, and destination `p3` (the curve
code of `beziercurve.h` is not in the header). -/
def cubicBezier (p0 p1 p2 p3 : QPt) (t : ℚ) : QPt :=
  ⟨(1 - t) ^ 3 * p0.x + 3 * (1 - t) ^ 2 * t * p1.x +
     3 * (1 - t) * t ^ 2 * p2.x + t ^ 3 * p3.x,
   (1 - t) ^ 3 * p0.y + 3 * (1 - t) ^ 2 * t * p1.y +
     3 * (1 - t) * t ^ 2 * p2.y + t ^ 3 * p3.y⟩

/-- Modelled from the spec: conversion of absolute curve samples into
relative integer deltas with the rounding error carried forward.  The
accumulator is the absolute integer position reached so far; each delta
moves it to the rounding of the next exact sample, so no rounding error
is ever dropped. -/
def deltasFrom (acc : Int × Int) : List QPt → List (Int × Int)
  | [] => []
  | p :: rest =>
    let dx := round p.x - acc.1
    let dy := round p.y - acc.2
    (dx, dy) :: deltasFrom (acc.1 + dx, acc.2 + dy) rest

/-- Component-wise sum of a list of relative deltas. -/
def sumDeltas : List (Int × Int) → Int × Int
  | [] => (0, 0)
  | d :: rest =>
    let s := sumDeltas rest
    (d.1 + s.1, d.2 + s.2)

/-- Modelled from the spec: the `n` evenly spaced curve parameters in
`(0, 1]`, ending exactly at `1` so the last sample is the
destination. -/
def sampleParams (n : Nat) : List ℚ :=
  (List.range n).map (fun (i : ℕ) => ((i : ℚ) + 1) / ((n : ℕ) : ℚ))

/-- Modelled from the spec: the curve generator used by
`move_mouse_to`: sample the cubic Bézier from `start` to `dest` at `n`
evenly spaced parameters and convert the samples to relative integer
deltas with carried rounding error. -/
def generateDeltas (start dest : Pt) (c1 c2 : QPt) (n : Nat) :
    List (Int × Int) :=
  deltasFrom (start.x, start.y)
    ((sampleParams n).map (cubicBezier (toQPt start) c1 c2 (toQPt dest)))

/-- Device class tag carried by each descriptor the transport
enumerates. -/
inductive DeviceClass where
  | keyboard
  | mouse
  deriving DecidableEq

/-- A device descriptor: class tag plus hardware-id string. -/
structure DeviceDesc where
  cls : DeviceClass
  hwid : List Char
  deriving DecidableEq

/-- Whether the needle occurs at the head of the haystack,
character for character. -/
def matchesAt : List Char → List Char → Bool
  | [], _ => true
  | _ :: _, [] => false
  | n :: ns, h :: hs => n == h && matchesAt ns hs

/-- Case-sensitive substring search: whether `needle` occurs anywhere
inside the haystack.  An empty needle matches everything, which is how
an empty filter selects the first device of its class. -/
def hasSubstr (needle : List Char) : List Char → Bool
  | [] => matchesAt needle []
  | c :: rest => matchesAt needle (c :: rest) || hasSubstr needle rest

/-- Modelled from the spec: the device selector picks the first
enumerated device of the wanted class whose hardware id contains the
filter keyword. -/
def selectDevice (devs : List DeviceDesc) (c : DeviceClass)
    (filt : List Char) : Option DeviceDesc :=
  devs.find? (fun d => d.cls == c && hasSubstr filt d.hwid)

/-- The pair of captured device handles held for the process lifetime;
handles are modelled as numbers issued by the transport `open`. -/
structure CaptureState where
  keyboardHandle : Option Nat
  mouseHandle : Option Nat
  deriving DecidableEq

/-- Modelled from the spec: the body of `capture_input_devices` (its
translation unit is not in the header).  `openDev` is the transport
`open`, which may fail.  Both devices are selected and opened before
either stored handle is replaced, so a failure leaves the previous
capture state untouched. -/
def capture_input_devices (openDev : DeviceDesc → Option Nat)
    (devs : List DeviceDesc) (kf mf : List Char) (st : CaptureState) :
    Bool × CaptureState :=
  match selectDevice devs DeviceClass.keyboard kf,
        selectDevice devs DeviceClass.mouse mf with
  | some kd, some md =>
    match openDev kd, openDev md with
    | some kh, some mh => (true, ⟨some kh, some mh⟩)
    | _, _ => (false, st)
  | _, _ => (false, st)

/-- Modelled from the spec: the character-to-input map used by `write`
(the key map of `core.h` is not in the header).  Letters map to the key
of their lowercase form; characters with no mapping yield `none`. -/
def lookupInput (c : Char) : Option InputId :=
  if c.isAlpha then some (InputId.key c.toLower) else none

/-- Modelled from the spec: the events `write` emits for one character.
An uppercase character is wrapped in shift-down before its own down
event and shift-up after its up event; a lowercase character is a plain
down/up pair; an unmapped character is skipped and emits nothing. -/
def charEvents (c : Char) : List Event :=
  match lookupInput c with
  | none => []
  | some k =>
    if c.isUpper then
      [Event.down InputId.shiftMod, Event.down k, Event.up k,
       Event.up InputId.shiftMod]
    else [Event.down k, Event.up k]

/-- Modelled from the spec: the body of `write` concatenates the event
sequences of the individual characters. -/
def write (text : List Char) : List Event :=
  text.flatMap charEvents

/-- A configuration with degenerate jitter bounds, used to exercise
the timing randomizer at concrete inputs. -/
def unitBoundsConfig : Config :=
  ⟨5, true, ((1 : ℚ), (1 : ℚ)), true⟩

/-- C3: hold is idempotent on the down event: a call to `hold` on an
input that is already down emits no events and leaves the state
unchanged, so two consecutive `hold` calls on an input that starts up
emit exactly one down event in total. -/
theorem hold_idempotent_single_down (s : HeldState) (i : InputId) :
    (s i = true → holdStep s i = (s, [])) ∧
    (s i = false →
      (holdStep s i).2 ++ (holdStep (holdStep s i).1 i).2 =
        [Event.down i]) := by
  constructor
  · intro h
    simp [holdStep, h]
  · intro h
    simp [holdStep, h, setHeld]

/-- Witness for C3: two consecutive holds of the letter key `a` from
the initial state emit exactly one down event. -/
theorem hold_idempotent_single_down_witness :
    (holdStep initHeld (InputId.key 'a')).2 ++
      (holdStep (holdStep initHeld (InputId.key 'a')).1
        (InputId.key 'a')).2 = [Event.down (InputId.key 'a')] :=
  (hold_idempotent_single_down initHeld (InputId.key 'a')).2 rfl

/-- C4: `release` on an input that is up (in particular in the initial
state) emits no events and leaves the state unchanged; `release` on an
input that is down emits exactly one up event and transitions the
input to up. -/
theorem release_spurious_noop (s : HeldState) (i : InputId) :
    (s i = false → releaseStep s i = (s, [])) ∧
    (s i = true →
      (releaseStep s i).2 = [Event.up i] ∧
      (releaseStep s i).1 i = false) := by
  constructor
  · intro h
    simp [releaseStep, h]
  · intro h
    simp [releaseStep, h, setHeld]

/-- Witness for C4: releasing the letter key `a` in the initial state,
with no prior hold or press, emits zero events and keeps the state. -/
theorem release_spurious_noop_witness :
    releaseStep initHeld (InputId.key 'a') = (initHeld, []) :=
  (release_spurious_noop initHeld (InputId.key 'a')).1 rfl

/-- C6: when the transport fails while an operation sends a down
event, the held state is unchanged, the input is not marked down, no
event is recorded, and the failure is returned to the caller as a
recoverable error value. -/
theorem failed_down_send_keeps_state (s : HeldState) (i : InputId)
    (h : s i = false) :
    (holdStepTx false s i).1 = s ∧
    (holdStepTx false s i).1 i = false ∧
    (holdStepTx false s i).2.1 = [] ∧
    (holdStepTx false s i).2.2 = some TxError.transportFailure := by
  refine ⟨?_, ?_, ?_, ?_⟩ <;> simp [holdStepTx, h]

/-- Witness for C6: a failed down-event send for the letter key `a`
from the initial state leaves the state untouched and reports the
transport failure. -/
theorem failed_down_send_keeps_state_witness :
    (holdStepTx false initHeld (InputId.key 'a')).1 = initHeld ∧
    (holdStepTx false initHeld (InputId.key 'a')).1
      (InputId.key 'a') = false ∧
    (holdStepTx false initHeld (InputId.key 'a')).2.1 = [] ∧
    (holdStepTx false initHeld (InputId.key 'a')).2.2 =
      some TxError.transportFailure :=
  failed_down_send_keeps_state initHeld (InputId.key 'a') rfl

/-- C7: holding an input with a duration and manually releasing it
before the duration elapses produces exactly one down and one up event
in total: the deferred auto-release finds the input already up and
emits nothing. -/
theorem hold_manual_release_timer_one_pair (s : HeldState) (i : InputId)
    (h : s i = false) :
    (holdManualReleaseTimerTrace s i).2 = [Event.down i, Event.up i] ∧
    (holdManualReleaseTimerTrace s i).1 i = false := by
  constructor <;>
    simp [holdManualReleaseTimerTrace, holdStep, releaseStep, h, setHeld]

/-- Witness for C7: holding the letter key `a` from the initial state,
manually releasing it, and then letting the timer fire produces the
single down-up pair. -/
theorem hold_manual_release_timer_one_pair_witness :
    (holdManualReleaseTimerTrace initHeld (InputId.key 'a')).2 =
      [Event.down (InputId.key 'a'), Event.up (InputId.key 'a')] ∧
    (holdManualReleaseTimerTrace initHeld (InputId.key 'a')).1
      (InputId.key 'a') = false :=
  hold_manual_release_timer_one_pair initHeld (InputId.key 'a') rfl

/-- C9: at process start the configuration globals hold exactly the
documented defaults — 5 ms default press duration, randomization on,
jitter bounds (0.8, 1.2), auto-disable of mouse acceleration on — and
the default bounds satisfy the invariant 0 < low ≤ 1 ≤ high. -/
theorem config_defaults_documented :
    initConfig.default_press_duration = 5 ∧
    initConfig.randomize_durations = true ∧
    initConfig.rand_factor_bounds = ((0.8 : ℚ), (1.2 : ℚ)) ∧
    initConfig.auto_disable_mouse_accel = true ∧
    0 < initConfig.rand_factor_bounds.1 ∧
    initConfig.rand_factor_bounds.1 ≤ 1 ∧
    1 ≤ initConfig.rand_factor_bounds.2 := by
  refine ⟨rfl, rfl, rfl, rfl, ?_, ?_, ?_⟩ <;> norm_num [initConfig]

/-- C10: a `press` call that omits the duration uses the value of the
mutable global `default_press_duration` at that call: after mutating
the global, the resolved default of every subsequent call is the new
value, and an explicitly passed duration is used as given. -/
theorem press_default_rereads_global (cfg : Config) (d1 d2 : Int) :
    resolvePressDuration cfg none = cfg.default_press_duration ∧
    resolvePressDuration (setDefaultPressDuration cfg d1) none = d1 ∧
    resolvePressDuration
      (setDefaultPressDuration (setDefaultPressDuration cfg d1) d2)
      none = d2 ∧
    (∀ d, resolvePressDuration cfg (some d) = d) ∧
    resolvePressDuration initConfig none = 5 :=
  ⟨rfl, rfl, rfl, fun _ => rfl, rfl⟩

/-- Rounding to the nearest integer never goes below the floor. -/
theorem floor_le_round_rat (x : ℚ) : ⌊x⌋ ≤ round x := by
  rw [round]
  split
  · exact le_refl _
  · exact Int.floor_le_ceil x

/-- Rounding to the nearest integer never goes above the ceiling. -/
theorem round_le_ceil_rat (x : ℚ) : round x ≤ ⌈x⌉ := by
  rw [round]
  split
  · exact Int.floor_le_ceil x
  · exact le_refl _

/-- C2: for a non-negative nominal duration `d`, bounds satisfying the
config invariant, and a random factor `f` inside the bounds, the
jittered duration lies in `[⌊d·lo⌋, ⌈d·hi⌉]` and is non-negative; with
randomization disabled it equals `d` exactly. -/
theorem jitter_within_bounds (cfg : Config) (f : ℚ) (d : Int)
    (hd : 0 ≤ d)
    (_hlo : 0 < cfg.rand_factor_bounds.1)
    (hlo1 : cfg.rand_factor_bounds.1 ≤ 1)
    (hhi1 : 1 ≤ cfg.rand_factor_bounds.2)
    (hf1 : cfg.rand_factor_bounds.1 ≤ f)
    (hf2 : f ≤ cfg.rand_factor_bounds.2) :
    ⌊(d : ℚ) * cfg.rand_factor_bounds.1⌋ ≤ jitter cfg f d ∧
    jitter cfg f d ≤ ⌈(d : ℚ) * cfg.rand_factor_bounds.2⌉ ∧
    0 ≤ jitter cfg f d ∧
    (cfg.randomize_durations = false → jitter cfg f d = d) := by
  have hdq : (0 : ℚ) ≤ (d : ℚ) := by exact_mod_cast hd
  have hmul1 : (d : ℚ) * cfg.rand_factor_bounds.1 ≤ (d : ℚ) * f :=
    mul_le_mul_of_nonneg_left hf1 hdq
  have hmul2 : (d : ℚ) * f ≤ (d : ℚ) * cfg.rand_factor_bounds.2 :=
    mul_le_mul_of_nonneg_left hf2 hdq
  have hlo_le_d : (d : ℚ) * cfg.rand_factor_bounds.1 ≤ (d : ℚ) := by
    calc (d : ℚ) * cfg.rand_factor_bounds.1 ≤ (d : ℚ) * 1 :=
          mul_le_mul_of_nonneg_left hlo1 hdq
    _ = (d : ℚ) := mul_one _
  have hd_le_hi : (d : ℚ) ≤ (d : ℚ) * cfg.rand_factor_bounds.2 := by
    calc (d : ℚ) = (d : ℚ) * 1 := (mul_one _).symm
    _ ≤ (d : ℚ) * cfg.rand_factor_bounds.2 :=
          mul_le_mul_of_nonneg_left hhi1 hdq
  cases hB : cfg.randomize_durations with
  | false =>
    have hj : jitter cfg f d = d := by simp [jitter, hB]
    rw [hj]
    refine ⟨?_, ?_, hd, fun _ => rfl⟩
    · have h1 := Int.floor_le_floor hlo_le_d
      rwa [Int.floor_intCast] at h1
    · have h2 := Int.ceil_le_ceil hd_le_hi
      rwa [Int.ceil_intCast] at h2
  | true =>
    have hj : jitter cfg f d = max 0 (round ((d : ℚ) * f)) := by
      simp [jitter, hB]
    rw [hj]
    have hlow : ⌊(d : ℚ) * cfg.rand_factor_bounds.1⌋ ≤
        round ((d : ℚ) * f) :=
      le_trans (Int.floor_le_floor hmul1) (floor_le_round_rat _)
    have hup : round ((d : ℚ) * f) ≤
        ⌈(d : ℚ) * cfg.rand_factor_bounds.2⌉ :=
      le_trans (round_le_ceil_rat _) (Int.ceil_le_ceil hmul2)
    have hcnn : (0 : Int) ≤ ⌈(d : ℚ) * cfg.rand_factor_bounds.2⌉ :=
      Int.ceil_nonneg (le_trans hdq hd_le_hi)
    refine ⟨le_trans hlow (le_max_right _ _), max_le hcnn hup,
      le_max_left _ _, ?_⟩
    intro hcontra
    exact absurd hcontra (by decide)

/-- Witness for C2: the jittered value of a 7 ms nominal duration under
degenerate bounds stays inside the rounded range and is non-negative. -/
theorem jitter_within_bounds_witness :
    ⌊((7 : Int) : ℚ) * unitBoundsConfig.rand_factor_bounds.1⌋ ≤
      jitter unitBoundsConfig 1 7 ∧
    jitter unitBoundsConfig 1 7 ≤
      ⌈((7 : Int) : ℚ) * unitBoundsConfig.rand_factor_bounds.2⌉ ∧
    0 ≤ jitter unitBoundsConfig 1 7 ∧
    (unitBoundsConfig.randomize_durations = false →
      jitter unitBoundsConfig 1 7 = 7) :=
  jitter_within_bounds unitBoundsConfig 1 7 (by decide) (by decide)
    (by decide) (by decide) (by decide) (by decide)

/-- The carried-rounding-error conversion telescopes: over any sample
list ending in `p`, the deltas sum to the rounding of `p` minus the
starting accumulator, on each axis. -/
theorem deltasFrom_append_sum (qs : List QPt) (p : QPt) (acc : Int × Int) :
    sumDeltas (deltasFrom acc (qs ++ [p])) =
      (round p.x - acc.1, round p.y - acc.2) := by
  induction qs generalizing acc with
  | nil => simp [deltasFrom, sumDeltas]
  | cons q qs ih =>
    simp only [List.cons_append, deltasFrom, sumDeltas, List.append_eq]
    rw [ih]
    simp only [Prod.mk.injEq]
    omega

/-- A cubic Bézier curve ends at its last control point. -/
theorem cubicBezier_one (p0 p1 p2 p3 : QPt) :
    cubicBezier p0 p1 p2 p3 1 = p3 := by
  cases p3 with
  | mk x y =>
    simp only [cubicBezier, QPt.mk.injEq]
    constructor <;> ring

/-- C1: for every start and destination, the relative integer deltas
the curve generator produces for `move_mouse_to` sum to exactly
`destination - start` on each axis: the per-step rounding error is
carried forward, so the cumulative drift is zero. -/
theorem curve_deltas_sum_exact (start dest : Pt) (c1 c2 : QPt) (n : Nat)
    (hn : 1 ≤ n) :
    sumDeltas (generateDeltas start dest c1 c2 n) =
      (dest.x - start.x, dest.y - start.y) := by
  obtain ⟨m, rfl⟩ : ∃ m, n = m + 1 := ⟨n - 1, by omega⟩
  have hlast : ((m : ℚ) + 1) / (((m + 1 : ℕ) : ℚ)) = 1 := by
    push_cast
    exact div_self (by positivity)
  unfold generateDeltas sampleParams
  rw [List.range_succ, List.map_append, List.map_append]
  simp only [List.map_cons, List.map_nil]
  rw [hlast, cubicBezier_one, deltasFrom_append_sum]
  simp [toQPt]

/-- Witness for C1: a two-step curve from the origin to `(10, 7)` with
arbitrary control points accumulates deltas summing to `(10, 7)`. -/
theorem curve_deltas_sum_exact_witness :
    sumDeltas (generateDeltas ⟨0, 0⟩ ⟨10, 7⟩ ⟨1, 2⟩ ⟨3, 4⟩ 2) =
      (10 - 0, 7 - 0) :=
  curve_deltas_sum_exact ⟨0, 0⟩ ⟨10, 7⟩ ⟨1, 2⟩ ⟨3, 4⟩ 2 (by decide)

/-- C5: `capture_input_devices` returns true exactly when both a
keyboard and a mouse device are selected and opened; whenever it
returns false the previously captured handles are left unchanged, so
handle replacement is all-or-nothing. -/
theorem capture_all_or_nothing (openDev : DeviceDesc → Option Nat)
    (devs : List DeviceDesc) (kf mf : List Char) (st : CaptureState) :
    ((capture_input_devices openDev devs kf mf st).1 = true ↔
      ∃ kd md, selectDevice devs DeviceClass.keyboard kf = some kd ∧
        selectDevice devs DeviceClass.mouse mf = some md ∧
        (openDev kd).isSome = true ∧ (openDev md).isSome = true) ∧
    ((capture_input_devices openDev devs kf mf st).1 = false →
      (capture_input_devices openDev devs kf mf st).2 = st) := by
  rcases hk : selectDevice devs DeviceClass.keyboard kf with _ | kd
  · simp [capture_input_devices, hk]
  rcases hm : selectDevice devs DeviceClass.mouse mf with _ | md
  · simp [capture_input_devices, hk, hm]
  rcases ho1 : openDev kd with _ | kh
  · simp [capture_input_devices, hk, hm, ho1]
  rcases ho2 : openDev md with _ | mh
  · simp [capture_input_devices, hk, hm, ho1, ho2]
  · simp [capture_input_devices, hk, hm, ho1, ho2]

/-- Witness for C5: capturing with a keyboard filter that matches no
hardware id fails and leaves the previously captured handles
untouched. -/
theorem capture_all_or_nothing_witness :
    (capture_input_devices (fun _ => some 0)
      [⟨DeviceClass.keyboard, ['k']⟩, ⟨DeviceClass.mouse, ['m']⟩]
      ['g'] [] ⟨some 7, some 8⟩).2 = ⟨some 7, some 8⟩ :=
  (capture_all_or_nothing (fun _ => some 0)
    [⟨DeviceClass.keyboard, ['k']⟩, ⟨DeviceClass.mouse, ['m']⟩]
    ['g'] [] ⟨some 7, some 8⟩).2 (by decide)

/-- C8: `write` wraps every mapped uppercase character in a shift-down
before its down event and a shift-up after its up event, emits plain
down/up pairs with no shift events for mapped lowercase characters,
and skips unmapped characters without emitting anything; in particular
`write` on the text `Ab` produces the documented six-event sequence. -/
theorem write_shift_wrapping :
    write ['A', 'b'] =
      [Event.down InputId.shiftMod, Event.down (InputId.key 'a'),
       Event.up (InputId.key 'a'), Event.up InputId.shiftMod,
       Event.down (InputId.key 'b'), Event.up (InputId.key 'b')] ∧
    (∀ c k, lookupInput c = some k → c.isUpper = true →
      charEvents c = [Event.down InputId.shiftMod, Event.down k,
        Event.up k, Event.up InputId.shiftMod]) ∧
    (∀ c k, lookupInput c = some k → c.isUpper = false →
      charEvents c = [Event.down k, Event.up k]) ∧
    (∀ c, lookupInput c = none → charEvents c = []) := by
  refine ⟨by decide, ?_, ?_, ?_⟩
  · intro c k h1 h2
    simp [charEvents, h1, h2]
  · intro c k h1 h2
    simp [charEvents, h1, h2]
  · intro c h
    simp [charEvents, h]

/-- Witness for C8: the uppercase letter `Z` is wrapped in shift
events, and the unmapped character `!` emits nothing. -/
theorem write_shift_wrapping_witness :
    charEvents 'Z' =
      [Event.down InputId.shiftMod, Event.down (InputId.key 'z'),
       Event.up (InputId.key 'z'), Event.up InputId.shiftMod] ∧
    charEvents '!' = [] :=
  ⟨write_shift_wrapping.2.1 'Z' (InputId.key 'z') (by decide) (by decide),
   write_shift_wrapping.2.2.2 '!' (by decide)⟩

end interception
